import Mathlib

/-!
Shallow embedding of the nds_tile repository (NDSCoordinate.py, NDSTile.py)
and proofs about the properties its specification claims.

Modelling conventions:
- Python integers are unbounded, so they are modelled by Lean `Int`.
- A Python bit test `x & (1 << k) != 0` on an arbitrary (possibly negative)
  integer tests bit `k` of the infinite twos-complement representation of `x`,
  which equals `2 ^ k <= x % 2 ^ (k + 1)` with the mathematical (nonnegative)
  remainder; `intTestBit` below is exactly this.
- Python `%` on a positive modulus is the mathematical remainder, which is
  `Int.emod` (the `%` of Lean `Int`), and Python `//` with a positive divisor
  is floor division, which agrees with Lean `Int` `/` (Euclidean division)
  for the operand signs occurring in the code.
- WGS84 degree inputs are modelled as rationals; every degree value appearing
  in the claims is exactly representable as a binary64 float and the float
  products computed by the code at those inputs are exact, so the rational
  model computes the same integers as the Python code there.  Python `int()`
  truncates toward zero, modelled by `ratTrunc`.
- Python functions that can raise `ValueError` are modelled as `Option`
  valued functions returning `none` where the code raises.
-/

/-- Bit `k` of the infinite twos-complement representation of the integer `x`;
this is the Lean model of the Python expression `x & (1 << k) != 0`. -/
def intTestBit (x : Int) (k : Nat) : Bool :=
  decide (2 ^ k ≤ x % 2 ^ (k + 1))

/-- Model of `to_signed_32bit` from NDSCoordinate.py: mask to the low 32 bits
(`value & 0xFFFFFFFF`, which for any Python integer is the mathematical
remainder modulo `2 ^ 32`) and, when bit 31 of the masked value is set,
sign-extend (`value | ~mask`, which subtracts `2 ^ 32` from the masked
value). -/
def to_signed_32bit (value : Int) : Int :=
  let masked := value % 2 ^ 32
  if intTestBit masked 31 then masked - 2 ^ 32 else masked

/-- The NDS fixed-point coordinate: a pair of (Python, hence unbounded)
integers, as stored by `NDSCoordinate.__init__`. -/
structure NDSCoordinate where
  longitude : Int
  latitude : Int
deriving DecidableEq, Repr

namespace NDSCoordinate

def MAX_LONGITUDE : Int := 2 ^ 31 - 1

def MIN_LONGITUDE : Int := -(2 ^ 31)

def MAX_LATITUDE : Int := MAX_LONGITUDE / 2

def MIN_LATITUDE : Int := MIN_LONGITUDE / 2

def LONGITUDE_RANGE : Int := MAX_LONGITUDE - MIN_LONGITUDE

def LATITUDE_RANGE : Int := MAX_LATITUDE - MIN_LATITUDE

/-- Model of `NDSCoordinate.verify`: `true` iff the pair is inside the
allowed ranges (the Python method raises `ValueError` otherwise). -/
def verify (lon lat : Int) : Bool :=
  !(lon < MIN_LONGITUDE || lon > MAX_LONGITUDE || lat < MIN_LATITUDE || lat > MAX_LATITUDE)

/-- Model of the integer-units branch of `NDSCoordinate.__init__`
(`NDSCoordinate(int longitude, int latitude)`): normalize both values with
`to_signed_32bit`, clamp each to the axis maximum with `min`, then `verify`;
`none` models the `ValueError` raised by `verify`. -/
def fromUnits (longitude latitude : Int) : Option NDSCoordinate :=
  let latitude1 := to_signed_32bit latitude
  let longitude1 := to_signed_32bit longitude
  let longitude2 := min longitude1 MAX_LONGITUDE
  let latitude2 := min latitude1 MAX_LATITUDE
  if verify longitude2 latitude2 then some ⟨longitude2, latitude2⟩ else none

/-- Model of `NDSCoordinate.add`. -/
def add (c : NDSCoordinate) (delta_longitude delta_latitude : Int) : Option NDSCoordinate :=
  fromUnits (c.longitude + delta_longitude) (c.latitude + delta_latitude)

/-- Model of the encoding loop of `NDSCoordinate.get_morton_code`
(`for pos in range(n)` with the accumulating `res |= ...` updates):
`mortonLoop lon lat n` is the value of `res` after the iterations
`pos = 0, ..., n - 1`. -/
def mortonLoop (lon lat : Int) : Nat → Nat
  | 0 => 0
  | n + 1 =>
    let res0 := mortonLoop lon lat n
    let res1 := if intTestBit lon n then res0 ||| 1 <<< (2 * n) else res0
    if n < 31 && intTestBit lat n then res1 ||| 1 <<< (2 * n + 1) else res1

/-- Model of `NDSCoordinate.get_morton_code`: interleave longitude bits into
even positions and latitude bits into odd positions for `pos in range(31)`,
then set bit 62 for a negative longitude and bit 61 for a negative latitude.
The result is a nonnegative Python integer, modelled as `Nat`. -/
def get_morton_code (c : NDSCoordinate) : Nat :=
  let res0 := mortonLoop c.longitude c.latitude 31
  let res1 := if c.longitude < 0 then res0 ||| 1 <<< 62 else res0
  if c.latitude < 0 then res1 ||| 1 <<< 61 else res1

/-- Model of the decoding loop of the Morton-code branch of
`NDSCoordinate.__init__` (`for pos in range(n)`): the pair is the value of
`(lat, lon)` after the iterations `pos = 0, ..., n - 1`. -/
def decodeLoop (m : Int) : Nat → Nat × Nat
  | 0 => (0, 0)
  | n + 1 =>
    let p := decodeLoop m n
    let lat := if n < 31 && intTestBit m (n * 2 + 1) then p.1 ||| 1 <<< n else p.1
    let lon := if intTestBit m (n * 2) then p.2 ||| 1 <<< n else p.2
    (lat, lon)

/-- Model of the Morton-code branch of `NDSCoordinate.__init__`
(`NDSCoordinate(long ndsMortonCoordinates)`): de-interleave 31 latitude bits
and 32 longitude bits, promote latitude bit 30 to bit 31 (the 31-bit sign),
normalize with `to_signed_32bit`, clamp to the axis maxima and `verify`. -/
def fromMorton (nds_morton_coordinates : Int) : Option NDSCoordinate :=
  let p := decodeLoop nds_morton_coordinates 32
  let lat0 := p.1
  let lon0 := p.2
  let lat1 := if lat0.testBit 30 then lat0 ||| 1 <<< 31 else lat0
  let lat2 := to_signed_32bit (lat1 : Int)
  let lon2 := to_signed_32bit (lon0 : Int)
  let lon3 := min lon2 MAX_LONGITUDE
  let lat3 := min lat2 MAX_LATITUDE
  if verify lon3 lat3 then some ⟨lon3, lat3⟩ else none

end NDSCoordinate

/-- Truncation of a rational toward zero; the Lean model of the Python
float-to-int conversion `int(x)`. -/
def ratTrunc (q : ℚ) : Int :=
  if 0 ≤ q then ⌊q⌋ else ⌈q⌉

namespace NDSCoordinate

/-- Model of the WGS84-degrees branch of `NDSCoordinate.__init__`
(`NDSCoordinate(double lon, double lat)`): range-check both degree values
(`none` models the `ValueError`), then scale into fixed-point units with
truncation toward zero.  Degrees are modelled as rationals; see the module
comment for why this is exact for the inputs appearing in the claims. -/
def fromDegrees (lon lat : ℚ) : Option NDSCoordinate :=
  if lon < -180 || lon > 180 then none
  else if lat < -90 || lat > 90 then none
  else some { latitude := ratTrunc (lat / 180 * (LATITUDE_RANGE : ℚ)),
              longitude := ratTrunc (lon / 360 * (LONGITUDE_RANGE : ℚ)) }

end NDSCoordinate

/-- The NDS tile, as stored by `NDSTile.__init__`: a level and a tile number
(both Python integers). -/
structure NDSTile where
  level : Int
  tile_number : Int
deriving DecidableEq, Repr

namespace NDSTile

def MAX_LEVEL : Int := 15

/-- Model of the loop of `NDSTile.extract_level`
(`for lvl in range(MAX_LEVEL, -1, -1)`), processing `lvl, lvl - 1, ..., 0`:
return the first level whose marker bit `16 + lvl` is set, special-casing a
negative packed id at `lvl = MAX_LEVEL`, and `-1` when no marker bit is
found. -/
def extractLevelFrom (packed_id : Int) : Nat → Int
  | 0 => if intTestBit packed_id 16 then 0 else -1
  | l + 1 =>
    if intTestBit packed_id (16 + (l + 1)) then ((l + 1 : Nat) : Int)
    else if packed_id < 0 && (l + 1 : Nat) == 15 then 15
    else extractLevelFrom packed_id l

/-- Model of `NDSTile.extract_level`. -/
def extract_level (packed_id : Int) : Int :=
  extractLevelFrom packed_id 15

/-- Model of the packed-id branch of `NDSTile.__init__` (`NDSTile(packed_id)`):
extract the level (`none` models the `ValueError` when no level bit is
present), then remove the level marker bit with xor
(`1 << (16 + level)` is `2 ^ (16 + level)`; the extracted level is
nonnegative here, so `toNat` is exact). -/
def fromPackedId (packed_id : Int) : Option NDSTile :=
  let level := extract_level packed_id
  if level < 0 then none
  else some ⟨level, Int.xor packed_id (2 ^ (16 + level.toNat))⟩

/-- Model of the level-and-tile-number branch of `NDSTile.__init__`
(`NDSTile(level, nr)`); `none` models the three `ValueError` range checks.
In the branch computing the bound the level is already known to lie in
`[0, 15]`, so `toNat` in the exponent is exact. -/
def fromLevelNumber (level nr : Int) : Option NDSTile :=
  if level < 0 || level > MAX_LEVEL then none
  else if nr < 0 then none
  else if nr > 2 ^ (2 * level.toNat + 1) - 1 then none
  else some ⟨level, nr⟩

/-- Model of the level-and-`NDSCoordinate` branch of `NDSTile.__init__`
(`NDSTile(level, coord)`): shift the Morton code of the coordinate right by
`32 + (MAX_LEVEL - level) * 2`.  This branch performs no range check on the
level; `none` only models the `ValueError` Python raises on a negative shift
count (which needs `level > 31`). -/
def fromLevelCoord (level : Int) (coord : NDSCoordinate) : Option NDSTile :=
  let shift : Int := 32 + (MAX_LEVEL - level) * 2
  if shift < 0 then none
  else some ⟨level, ((coord.get_morton_code >>> shift.toNat : Nat) : Int)⟩

/-- Model of `NDSTile.contains`: the coordinate Morton code shifted by
`32 + (MAX_LEVEL - level) * 2` must equal the tile number.  For every tile
with `level ≤ MAX_LEVEL` the shift is nonnegative, so `toNat` is exact
(Python raises on a negative shift count, which needs `level > 31`). -/
def contains (t : NDSTile) (c : NDSCoordinate) : Bool :=
  t.tile_number == ((c.get_morton_code >>> (32 + (MAX_LEVEL - t.level) * 2).toNat : Nat) : Int)

/-- Model of `NDSTile.packed_id`: `tile_number + (1 << (16 + level))`; every
constructed tile has a nonnegative level, so `toNat` in the exponent is
exact. -/
def packed_id (t : NDSTile) : Int :=
  t.tile_number + 2 ^ (16 + t.level.toNat)

/-- Model of `NDSTile.south_west_as_morton`:
`tile_number << (32 + (MAX_LEVEL - level) * 2)`, written as multiplication by
the power of two (Python left shift on arbitrary integers); for every tile
with `level ≤ MAX_LEVEL` the shift is nonnegative, so `toNat` is exact. -/
def south_west_as_morton (t : NDSTile) : Int :=
  t.tile_number * 2 ^ (32 + (MAX_LEVEL - t.level) * 2).toNat

/-- Model of `NDSTile.get_center`: the two level-0 hemisphere centers are
special-cased; otherwise decode the south-west corner Morton code and add
half the tile span on each axis, plus one unit on an axis whose south-west
value is negative.  All divisions have positive operands, where Python `//`
agrees with the `Int` division of Lean; `int(...)` on an integer is the
identity.  `none` propagates a `ValueError` from the coordinate
constructions (which never fires for valid tiles). -/
def get_center (t : NDSTile) : Option NDSCoordinate :=
  if t.level == 0 then
    if t.tile_number == 0 then
      NDSCoordinate.fromUnits (NDSCoordinate.MAX_LONGITUDE / 2) 0
    else
      NDSCoordinate.fromUnits (NDSCoordinate.MIN_LONGITUDE / 2) 0
  else
    match NDSCoordinate.fromMorton t.south_west_as_morton with
    | none => none
    | some sw =>
      let clat := sw.latitude + NDSCoordinate.LATITUDE_RANGE / 2 ^ (t.level.toNat + 1) +
        (if sw.latitude < 0 then 1 else 0)
      let clon := sw.longitude + NDSCoordinate.LONGITUDE_RANGE / 2 ^ (t.level.toNat + 2) +
        (if sw.longitude < 0 then 1 else 0)
      NDSCoordinate.fromUnits clon clat

/-- Model of the de-interleaving loop of `NDSTile.get_tile_grid_coordinates`
(`for _ in range(n)`): the pair is the value of `(col, row)` after `n`
iterations; iteration `j` reads tile-number bits `2 j` and `2 j + 1` and can
set bit `j` of `col` and of `row`. -/
def gridLoop (tn : Int) : Nat → Nat × Nat
  | 0 => (0, 0)
  | n + 1 =>
    let p := gridLoop tn n
    let col := if intTestBit tn (2 * n) then p.1 ||| 1 <<< n else p.1
    let row := if intTestBit tn (2 * n + 1) then p.2 ||| 1 <<< n else p.2
    (col, row)

/-- Model of `NDSTile.get_tile_grid_coordinates`: level 0 is special-cased;
otherwise de-interleave `level + 1` bit pairs of the tile number and remap
the column from `[0, 2 ^ (level + 1))` and the row from `[0, 2 ^ level)`
into their signed ranges.  The Python `1 << self.level - 1` parses as
`1 << (level - 1)`, and this branch has `level ≥ 1`, so `toNat - 1` is
exact. -/
def get_tile_grid_coordinates (t : NDSTile) : Int × Int :=
  if t.level == 0 then
    (if t.tile_number == 0 then ((0 : Int), (0 : Int)) else ((-1 : Int), (0 : Int)))
  else
    let p := gridLoop t.tile_number (t.level.toNat + 1)
    let col : Int := p.1
    let row : Int := p.2
    ((if col < 2 ^ t.level.toNat then col else col - 2 ^ (t.level.toNat + 1)),
     (if row < 2 ^ (t.level.toNat - 1) then row else row - 2 ^ t.level.toNat))

end NDSTile

section SignedLemmas

theorem to_signed_32bit_emod (v : Int) : to_signed_32bit v % 2 ^ 32 = v % 2 ^ 32 := by
  unfold to_signed_32bit intTestBit
  have h32 : (2 : Int) ^ 32 = 4294967296 := by norm_num
  have h31 : (2 : Int) ^ 31 = 2147483648 := by norm_num
  simp only [h32, h31, decide_eq_true_eq]
  split <;> omega

theorem to_signed_32bit_lb (v : Int) : -(2 ^ 31) ≤ to_signed_32bit v := by
  unfold to_signed_32bit intTestBit
  have h32 : (2 : Int) ^ 32 = 4294967296 := by norm_num
  have h31 : (2 : Int) ^ 31 = 2147483648 := by norm_num
  simp only [h32, h31, decide_eq_true_eq]
  split <;> omega

theorem to_signed_32bit_ub (v : Int) : to_signed_32bit v < 2 ^ 31 := by
  unfold to_signed_32bit intTestBit
  have h32 : (2 : Int) ^ 32 = 4294967296 := by norm_num
  have h31 : (2 : Int) ^ 31 = 2147483648 := by norm_num
  simp only [h32, h31, decide_eq_true_eq]
  split <;> omega

theorem to_signed_32bit_of_range (v : Int) (h1 : -(2 ^ 31) ≤ v) (h2 : v < 2 ^ 31) :
    to_signed_32bit v = v := by
  unfold to_signed_32bit intTestBit
  have h32 : (2 : Int) ^ 32 = 4294967296 := by norm_num
  have h31 : (2 : Int) ^ 31 = 2147483648 := by norm_num
  simp only [h32, h31, decide_eq_true_eq]
  have h32b : (2 : Int) ^ 32 = 4294967296 := h32
  split <;> omega

end SignedLemmas

section BitLemmas

theorem natTestBit_iff_le_mod (n k : ℕ) :
    n.testBit k = decide (2 ^ k ≤ n % 2 ^ (k + 1)) := by
  rw [Nat.testBit_to_div_mod, decide_eq_decide]
  have hp : 0 < 2 ^ k := Nat.pos_pow_of_pos k (by norm_num)
  have h1 : n % 2 ^ (k + 1) / 2 ^ k = n / 2 ^ k % 2 := by
    rw [pow_succ]
    exact Nat.mod_mul_right_div_self n (2 ^ k) 2
  have h2 : n % 2 ^ (k + 1) < 2 ^ k * 2 := by
    rw [← pow_succ]
    exact Nat.mod_lt _ (by positivity)
  rw [← h1]
  constructor
  · intro h
    exact (Nat.one_le_div_iff hp).mp (by omega)
  · intro h
    have h3 : 1 ≤ n % 2 ^ (k + 1) / 2 ^ k := (Nat.one_le_div_iff hp).mpr h
    have h4 : n % 2 ^ (k + 1) / 2 ^ k < 2 := Nat.div_lt_of_lt_mul (by omega)
    omega

theorem intTestBit_natCast (n k : ℕ) : intTestBit (n : ℤ) k = n.testBit k := by
  unfold intTestBit
  rw [natTestBit_iff_le_mod n k, decide_eq_decide]
  constructor
  · intro h
    exact_mod_cast h
  · intro h
    exact_mod_cast h

theorem intTestBit_emod_pow (x : ℤ) (n k : ℕ) (h : k < n) :
    intTestBit (x % 2 ^ n) k = intTestBit x k := by
  unfold intTestBit
  have hdvd : ((2 : ℤ) ^ (k + 1)) ∣ 2 ^ n := pow_dvd_pow 2 (by omega)
  rw [Int.emod_emod_of_dvd x hdvd]

theorem intTestBit_eq_toNat (x : ℤ) (k : ℕ) (h : k < 32) :
    intTestBit x k = ((x % 2 ^ 32).toNat).testBit k := by
  rw [← intTestBit_emod_pow x 32 k h, ← intTestBit_natCast]
  congr 1
  exact (Int.toNat_of_nonneg (Int.emod_nonneg x (by norm_num))).symm

theorem mortonLoop_testBit (lon lat : ℤ) (n k : ℕ) :
    (NDSCoordinate.mortonLoop lon lat n).testBit k =
      (decide (k < 2 * n) &&
        (if k % 2 = 0 then intTestBit lon (k / 2)
         else decide (k / 2 < 31) && intTestBit lat (k / 2))) := by
  induction n with
  | zero =>
    simp [NDSCoordinate.mortonLoop]
  | succ m ih =>
    rw [NDSCoordinate.mortonLoop]
    simp only [Nat.one_shiftLeft]
    rcases Nat.lt_trichotomy k (2 * m) with hk | hk | hk
    · have e1 : ¬(2 * m = k) := by omega
      have e2 : ¬(2 * m + 1 = k) := by omega
      have e3 : k < 2 * m + 2 := by omega
      by_cases hlo : intTestBit lon m <;> by_cases hla : decide (m < 31) && intTestBit lat m <;>
        simp [hlo, hla, Nat.testBit_or, Nat.testBit_two_pow, e1, e2, ih, hk, e3]
      all_goals intro _h
      all_goals omega
    · subst hk
      have e1 : (2 * m) % 2 = 0 := by omega
      have e2 : (2 * m) / 2 = m := by omega
      have e3 : ¬(2 * m < 2 * m) := by omega
      have e4 : ¬(2 * m + 1 = 2 * m) := by omega
      have e5 : 2 * m < 2 * (m + 1) := by omega
      by_cases hlo : intTestBit lon m <;> by_cases hla : decide (m < 31) && intTestBit lat m <;>
        simp [hlo, hla, Nat.testBit_or, Nat.testBit_two_pow, ih, e1, e2, e3, e4, e5]
    · rcases Nat.lt_or_ge k (2 * m + 2) with hk2 | hk2
      · have hkeq : k = 2 * m + 1 := by omega
        subst hkeq
        have e1 : (2 * m + 1) % 2 = 1 := by omega
        have e2 : (2 * m + 1) / 2 = m := by omega
        have e3 : ¬(2 * m + 1 < 2 * m) := by omega
        have e4 : ¬(2 * m = 2 * m + 1) := by omega
        have e5 : 2 * m + 1 < 2 * (m + 1) := by omega
        by_cases hlo : intTestBit lon m <;> by_cases hla : decide (m < 31) && intTestBit lat m <;>
          simp [hlo, hla, Nat.testBit_or, Nat.testBit_two_pow, ih, e1, e2, e3, e4, e5]
      · have e1 : ¬(2 * m = k) := by omega
        have e2 : ¬(2 * m + 1 = k) := by omega
        have e3 : ¬(k < 2 * m) := by omega
        have e4 : ¬(k < 2 * (m + 1)) := by omega
        by_cases hlo : intTestBit lon m <;> by_cases hla : decide (m < 31) && intTestBit lat m <;>
          simp [hlo, hla, Nat.testBit_or, Nat.testBit_two_pow, ih, e1, e2, e3, e4]

theorem decodeLoop_fst_testBit (m : ℤ) (n k : ℕ) :
    ((NDSCoordinate.decodeLoop m n).1).testBit k =
      (decide (k < n) && decide (k < 31) && intTestBit m (k * 2 + 1)) := by
  induction n with
  | zero =>
    simp [NDSCoordinate.decodeLoop]
  | succ j ih =>
    rw [NDSCoordinate.decodeLoop]
    simp only [Nat.one_shiftLeft]
    rcases Nat.lt_trichotomy k j with hk | hk | hk
    · have e1 : ¬(j = k) := by omega
      by_cases hb : decide (j < 31) && intTestBit m (j * 2 + 1) <;>
        simp [hb, Nat.testBit_or, Nat.testBit_two_pow, e1, ih, hk, show k < j + 1 by omega]
    · subst hk
      by_cases hb : decide (k < 31) && intTestBit m (k * 2 + 1) <;>
        simp [hb, Nat.testBit_or, Nat.testBit_two_pow, ih, show ¬(k < k) by omega,
          show k < k + 1 by omega]
    · have e1 : ¬(j = k) := by omega
      by_cases hb : decide (j < 31) && intTestBit m (j * 2 + 1) <;>
        simp [hb, Nat.testBit_or, Nat.testBit_two_pow, e1, ih, show ¬(k < j) by omega,
          show ¬(k < j + 1) by omega]

theorem decodeLoop_snd_testBit (m : ℤ) (n k : ℕ) :
    ((NDSCoordinate.decodeLoop m n).2).testBit k =
      (decide (k < n) && intTestBit m (k * 2)) := by
  induction n with
  | zero =>
    simp [NDSCoordinate.decodeLoop]
  | succ j ih =>
    rw [NDSCoordinate.decodeLoop]
    simp only [Nat.one_shiftLeft]
    rcases Nat.lt_trichotomy k j with hk | hk | hk
    · have e1 : ¬(j = k) := by omega
      by_cases hb : intTestBit m (j * 2) <;>
        simp [hb, Nat.testBit_or, Nat.testBit_two_pow, e1, ih, hk, show k < j + 1 by omega]
    · subst hk
      by_cases hb : intTestBit m (k * 2) <;>
        simp [hb, Nat.testBit_or, Nat.testBit_two_pow, ih, show ¬(k < k) by omega,
          show k < k + 1 by omega]
    · have e1 : ¬(j = k) := by omega
      by_cases hb : intTestBit m (j * 2) <;>
        simp [hb, Nat.testBit_or, Nat.testBit_two_pow, e1, ih, show ¬(k < j) by omega,
          show ¬(k < j + 1) by omega]

theorem orFlags_testBit (M0 : ℕ) (p q : Prop) [Decidable p] [Decidable q] (k : ℕ) :
    ((if q then (if p then M0 ||| 2 ^ 62 else M0) ||| 2 ^ 61
      else (if p then M0 ||| 2 ^ 62 else M0)).testBit k)
      = (M0.testBit k || (decide p && decide (62 = k)) || (decide q && decide (61 = k))) := by
  by_cases hp : p <;> by_cases hq : q <;>
    simp [hp, hq, Nat.testBit_or, Nat.testBit_two_pow, -Nat.reducePow]

/-- Bitwise characterization of `get_morton_code`: even bits up to 60 carry
longitude bits, odd bits up to 59 carry latitude bits, bit 61 is the
latitude bit 30 combined with the latitude sign flag, bit 62 is the
longitude sign flag, and all higher bits vanish. -/
theorem get_morton_code_testBit (c : NDSCoordinate) (k : ℕ) :
    (NDSCoordinate.get_morton_code c).testBit k =
      (if k = 62 then decide (c.longitude < 0)
       else if k = 61 then (intTestBit c.latitude 30 || decide (c.latitude < 0))
       else decide (k < 61) &&
         (if k % 2 = 0 then intTestBit c.longitude (k / 2)
          else intTestBit c.latitude (k / 2))) := by
  simp only [NDSCoordinate.get_morton_code, Nat.one_shiftLeft]
  rw [orFlags_testBit, mortonLoop_testBit]
  by_cases h62 : k = 62
  · subst h62
    simp
  by_cases h61 : k = 61
  · subst h61
    simp
  rcases Nat.lt_or_ge k 61 with hk | hk
  · have hk62 : k < 62 := by omega
    have hne1 : ¬(62 = k) := by omega
    have hne2 : ¬(61 = k) := by omega
    rcases Nat.even_or_odd k with he | he
    · have h0 : k % 2 = 0 := Nat.even_iff.mp he
      simp [h62, h61, hk, hk62, hne1, hne2, h0]
    · have h1 : k % 2 = 1 := Nat.odd_iff.mp he
      have h2 : k / 2 < 31 := by omega
      simp [h62, h61, hk, hk62, hne1, hne2, h1, h2]
  · have hk62 : ¬(k < 62) := by omega
    have hk61 : ¬(k < 61) := by omega
    have hne1 : ¬(62 = k) := by omega
    have hne2 : ¬(61 = k) := by omega
    simp [h62, h61, hk61, hk62, hne1, hne2]

theorem natTestBit_high_false (x : ℕ) (hx : x < 2 ^ 32) (i : ℕ) (hi : 32 ≤ i) :
    x.testBit i = false :=
  Nat.testBit_lt_two_pow (lt_of_lt_of_le hx (Nat.pow_le_pow_right (by norm_num) hi))

theorem intTestBit_31_of_range (x : ℤ) (h1 : -(2 ^ 31) ≤ x) (h2 : x < 2 ^ 31) :
    intTestBit x 31 = decide (x < 0) := by
  unfold intTestBit
  rw [decide_eq_decide]
  have e1 : (2 : ℤ) ^ 31 = 2147483648 := by norm_num
  have e2 : (2 : ℤ) ^ (31 + 1) = 4294967296 := by norm_num
  rw [e1, e2]
  rw [e1] at h1 h2
  omega

theorem intTestBit_30_of_lat_range (x : ℤ) (h1 : -(2 ^ 30) ≤ x) (h2 : x < 2 ^ 30) :
    intTestBit x 30 = decide (x < 0) := by
  unfold intTestBit
  rw [decide_eq_decide]
  have e1 : (2 : ℤ) ^ 30 = 1073741824 := by norm_num
  have e2 : (2 : ℤ) ^ (30 + 1) = 2147483648 := by norm_num
  rw [e1, e2]
  rw [e1] at h1 h2
  omega

/-- Two integers in the signed 32-bit range agreeing on their 32
twos-complement bits are equal. -/
theorem int32_eq_of_testBit (a b : ℤ)
    (ha1 : -(2 ^ 31) ≤ a) (ha2 : a < 2 ^ 31) (hb1 : -(2 ^ 31) ≤ b) (hb2 : b < 2 ^ 31)
    (h : ∀ p : ℕ, p < 32 → intTestBit a p = intTestBit b p) : a = b := by
  have hmod : (a % 2 ^ 32).toNat = (b % 2 ^ 32).toNat := by
    apply Nat.eq_of_testBit_eq
    intro i
    rcases Nat.lt_or_ge i 32 with hi | hi
    · rw [← intTestBit_eq_toNat a i hi, ← intTestBit_eq_toNat b i hi]
      exact h i hi
    · have hlta : (a % 2 ^ 32).toNat < 2 ^ 32 := by
        have := Int.emod_lt_of_pos a (show (0 : ℤ) < 2 ^ 32 by norm_num)
        have h0 := Int.emod_nonneg a (show (2 : ℤ) ^ 32 ≠ 0 by norm_num)
        omega
      have hltb : (b % 2 ^ 32).toNat < 2 ^ 32 := by
        have := Int.emod_lt_of_pos b (show (0 : ℤ) < 2 ^ 32 by norm_num)
        have h0 := Int.emod_nonneg b (show (2 : ℤ) ^ 32 ≠ 0 by norm_num)
        omega
      rw [natTestBit_high_false _ hlta i hi, natTestBit_high_false _ hltb i hi]
  have e1 : (2 : ℤ) ^ 31 = 2147483648 := by norm_num
  have e2 : (2 : ℤ) ^ 32 = 4294967296 := by norm_num
  rw [e1] at ha1 ha2 hb1 hb2
  rw [e2] at hmod
  omega

/-- Full characterization of the Morton-decode construction path: it always
succeeds, the resulting coordinate is inside the coordinate domain, its
longitude bits `0..31` are the even bits `0..62` of the input, its latitude
bits `0..30` are the odd bits `1..61` of the input, and its latitude sign
bit repeats input bit 61 (the promoted 31-bit latitude sign). -/
theorem fromMorton_spec (m : ℤ) :
    ∃ c : NDSCoordinate, NDSCoordinate.fromMorton m = some c ∧
      -(2 ^ 31) ≤ c.longitude ∧ c.longitude < 2 ^ 31 ∧
      -(2 ^ 30) ≤ c.latitude ∧ c.latitude < 2 ^ 30 ∧
      (∀ p : ℕ, p < 32 → intTestBit c.longitude p = intTestBit m (p * 2)) ∧
      (∀ p : ℕ, p < 31 → intTestBit c.latitude p = intTestBit m (p * 2 + 1)) ∧
      intTestBit c.latitude 31 = intTestBit m (30 * 2 + 1) := by
  have e30 : (2 : ℤ) ^ 30 = 1073741824 := by norm_num
  have e31 : (2 : ℤ) ^ 31 = 2147483648 := by norm_num
  have e32 : (2 : ℤ) ^ 32 = 4294967296 := by norm_num
  set L0 := (NDSCoordinate.decodeLoop m 32).1 with hL0def
  set N0 := (NDSCoordinate.decodeLoop m 32).2 with hN0def
  have hL0bits : ∀ k, L0.testBit k = (decide (k < 31) && intTestBit m (k * 2 + 1)) := by
    intro k
    rw [hL0def, decodeLoop_fst_testBit]
    rcases Nat.lt_or_ge k 31 with hk | hk
    · simp [hk, show k < 32 by omega]
    · simp [show ¬(k < 31) by omega]
  have hN0bits : ∀ k, N0.testBit k = (decide (k < 32) && intTestBit m (k * 2)) := by
    intro k
    rw [hN0def, decodeLoop_snd_testBit]
  have hL0lt : L0 < 2 ^ 31 := by
    apply Nat.lt_pow_two_of_testBit
    intro i hi
    rw [hL0bits]
    simp [show ¬(i < 31) by omega]
  have hN0lt : N0 < 2 ^ 32 := by
    apply Nat.lt_pow_two_of_testBit
    intro i hi
    rw [hN0bits]
    simp [show ¬(i < 32) by omega]
  set lat1 := (if L0.testBit 30 then L0 ||| 1 <<< 31 else L0) with hlat1def
  have hlat1bits_low : ∀ k, k < 31 → lat1.testBit k = L0.testBit k := by
    intro k hk
    rw [hlat1def]
    split
    · rw [Nat.one_shiftLeft, Nat.testBit_or, Nat.testBit_two_pow,
        decide_eq_false (by omega : ¬(31 = k)), Bool.or_false]
    · rfl
  have hlat1bit31 : lat1.testBit 31 = L0.testBit 30 := by
    rw [hlat1def]
    by_cases h : L0.testBit 30
    · rw [if_pos h, Nat.one_shiftLeft, Nat.testBit_or, Nat.testBit_two_pow,
        Nat.testBit_lt_two_pow hL0lt, h]
      simp
    · rw [Bool.not_eq_true] at h
      rw [if_neg (by rw [h]; exact Bool.false_ne_true), Nat.testBit_lt_two_pow hL0lt, h]
  have hlat1lt : lat1 < 2 ^ 32 := by
    rw [hlat1def]
    split
    · rw [Nat.one_shiftLeft]
      exact Nat.or_lt_two_pow (by omega) (by norm_num)
    · omega
  have hlat1bits_high : ∀ i, 32 ≤ i → lat1.testBit i = false :=
    fun i hi => natTestBit_high_false lat1 hlat1lt i hi
  set lat2 := to_signed_32bit (lat1 : ℤ) with hlat2def
  set lon2 := to_signed_32bit (N0 : ℤ) with hlon2def
  have hlat2mod : lat2 % 2 ^ 32 = (lat1 : ℤ) := by
    rw [hlat2def, to_signed_32bit_emod]
    rw [Int.emod_eq_of_lt (by positivity) (by exact_mod_cast hlat1lt)]
  have hlon2mod : lon2 % 2 ^ 32 = (N0 : ℤ) := by
    rw [hlon2def, to_signed_32bit_emod]
    rw [Int.emod_eq_of_lt (by positivity) (by exact_mod_cast hN0lt)]
  have hlat2bits : ∀ p : ℕ, p < 32 → intTestBit lat2 p = lat1.testBit p := by
    intro p hp
    rw [intTestBit_eq_toNat lat2 p hp, hlat2mod]
    norm_num
  have hlon2bits : ∀ p : ℕ, p < 32 → intTestBit lon2 p = N0.testBit p := by
    intro p hp
    rw [intTestBit_eq_toNat lon2 p hp, hlon2mod]
    norm_num
  have hlon2lb := to_signed_32bit_lb (N0 : ℤ)
  have hlon2ub := to_signed_32bit_ub (N0 : ℤ)
  have hlat2lb : -(2 ^ 30) ≤ lat2 ∧ lat2 < 2 ^ 30 := by
    have hb31 : lat1.testBit 31 = decide (2 ^ 31 ≤ lat1 % 2 ^ (31 + 1)) :=
      natTestBit_iff_le_mod lat1 31
    have hb30 : lat1.testBit 30 = decide (2 ^ 30 ≤ lat1 % 2 ^ (30 + 1)) :=
      natTestBit_iff_le_mod lat1 30
    have heq : (2 ^ 31 ≤ lat1 % 2 ^ (31 + 1)) ↔ (2 ^ 30 ≤ lat1 % 2 ^ (30 + 1)) := by
      rw [← decide_eq_decide, ← hb31, ← hb30, hlat1bit31, hlat1bits_low 30 (by omega)]
    have hlb2 := to_signed_32bit_lb (lat1 : ℤ)
    have hub2 := to_signed_32bit_ub (lat1 : ℤ)
    rw [← hlat2def] at hlb2 hub2
    have hm := hlat2mod
    have hcast : ((lat1 % 2 ^ 32 : ℕ) : ℤ) = (lat1 : ℤ) % 2 ^ 32 := by
      push_cast
      rfl
    omega
  obtain ⟨hlat2lb1, hlat2ub1⟩ := hlat2lb
  have hminlon : min lon2 NDSCoordinate.MAX_LONGITUDE = lon2 := by
    apply min_eq_left
    show lon2 ≤ (2 : ℤ) ^ 31 - 1
    omega
  have hminlat : min lat2 NDSCoordinate.MAX_LATITUDE = lat2 := by
    apply min_eq_left
    have : NDSCoordinate.MAX_LATITUDE = 2 ^ 30 - 1 := by
      norm_num [NDSCoordinate.MAX_LATITUDE, NDSCoordinate.MAX_LONGITUDE]
    omega
  have hverify : NDSCoordinate.verify (min lon2 NDSCoordinate.MAX_LONGITUDE)
      (min lat2 NDSCoordinate.MAX_LATITUDE) = true := by
    rw [hminlon, hminlat]
    unfold NDSCoordinate.verify
    have h1 : NDSCoordinate.MIN_LONGITUDE = -(2 ^ 31) := rfl
    have h2 : NDSCoordinate.MAX_LONGITUDE = 2 ^ 31 - 1 := by
      norm_num [NDSCoordinate.MAX_LONGITUDE]
    have h3 : NDSCoordinate.MIN_LATITUDE = -(2 ^ 30) := by
      norm_num [NDSCoordinate.MIN_LATITUDE, NDSCoordinate.MIN_LONGITUDE]
    have h4 : NDSCoordinate.MAX_LATITUDE = 2 ^ 30 - 1 := by
      norm_num [NDSCoordinate.MAX_LATITUDE, NDSCoordinate.MAX_LONGITUDE]
    simp only [h1, h2, h3, h4, Bool.not_eq_true', Bool.or_eq_false_iff,
      decide_eq_false_iff_not, not_lt, not_le]
    refine ⟨⟨⟨?_, ?_⟩, ?_⟩, ?_⟩ <;> omega
  have hresult : NDSCoordinate.fromMorton m =
      some ⟨min lon2 NDSCoordinate.MAX_LONGITUDE, min lat2 NDSCoordinate.MAX_LATITUDE⟩ := by
    show (if NDSCoordinate.verify (min lon2 NDSCoordinate.MAX_LONGITUDE)
            (min lat2 NDSCoordinate.MAX_LATITUDE) = true
          then some (⟨min lon2 NDSCoordinate.MAX_LONGITUDE,
            min lat2 NDSCoordinate.MAX_LATITUDE⟩ : NDSCoordinate)
          else none) =
        some ⟨min lon2 NDSCoordinate.MAX_LONGITUDE, min lat2 NDSCoordinate.MAX_LATITUDE⟩
    rw [if_pos hverify]
  refine ⟨⟨min lon2 NDSCoordinate.MAX_LONGITUDE, min lat2 NDSCoordinate.MAX_LATITUDE⟩,
    hresult, ?_, ?_, ?_, ?_, ?_, ?_, ?_⟩
  · rw [hminlon]
    exact hlon2lb
  · rw [hminlon]
    exact hlon2ub
  · rw [hminlat]
    exact hlat2lb1
  · rw [hminlat]
    exact hlat2ub1
  · intro p hp
    show intTestBit (min lon2 NDSCoordinate.MAX_LONGITUDE) p = intTestBit m (p * 2)
    rw [hminlon, hlon2bits p hp, hN0bits]
    simp [hp]
  · intro p hp
    show intTestBit (min lat2 NDSCoordinate.MAX_LATITUDE) p = intTestBit m (p * 2 + 1)
    rw [hminlat, hlat2bits p (by omega), hlat1bits_low p hp, hL0bits]
    simp [hp]
  · show intTestBit (min lat2 NDSCoordinate.MAX_LATITUDE) 31 = intTestBit m (30 * 2 + 1)
    rw [hminlat, hlat2bits 31 (by omega), hlat1bit31, hL0bits]
    simp

theorem MAX_LONGITUDE_eq : NDSCoordinate.MAX_LONGITUDE = 2 ^ 31 - 1 := rfl

theorem MIN_LONGITUDE_eq : NDSCoordinate.MIN_LONGITUDE = -(2 ^ 31) := rfl

theorem MAX_LATITUDE_eq : NDSCoordinate.MAX_LATITUDE = 2 ^ 30 - 1 := by decide

theorem MIN_LATITUDE_eq : NDSCoordinate.MIN_LATITUDE = -(2 ^ 30) := by decide

theorem LONGITUDE_RANGE_eq : NDSCoordinate.LONGITUDE_RANGE = 2 ^ 32 - 1 := by decide

theorem LATITUDE_RANGE_eq : NDSCoordinate.LATITUDE_RANGE = 2 ^ 31 - 1 := by decide

end BitLemmas

section FromUnitsLemmas

/-- Closed form of the integer-units construction path: the longitude check of
`verify` can never fire (a normalized value is already in the longitude
domain), so the construction fails exactly when the normalized latitude lies
below `MIN_LATITUDE`, and otherwise stores the normalized, max-clamped pair. -/
theorem fromUnits_eq (a b : Int) :
    NDSCoordinate.fromUnits a b =
      if to_signed_32bit b < NDSCoordinate.MIN_LATITUDE then none
      else some ⟨min (to_signed_32bit a) NDSCoordinate.MAX_LONGITUDE,
                 min (to_signed_32bit b) NDSCoordinate.MAX_LATITUDE⟩ := by
  unfold NDSCoordinate.fromUnits NDSCoordinate.verify
  have ha1 := to_signed_32bit_lb a
  have ha2 := to_signed_32bit_ub a
  have hb1 := to_signed_32bit_lb b
  have hb2 := to_signed_32bit_ub b
  have hminlon : NDSCoordinate.MIN_LONGITUDE = -(2 ^ 31) := rfl
  have hmaxlon : NDSCoordinate.MAX_LONGITUDE = 2 ^ 31 - 1 := by norm_num [NDSCoordinate.MAX_LONGITUDE]
  have hminlat : NDSCoordinate.MIN_LATITUDE = -(2 ^ 30) := by norm_num [NDSCoordinate.MIN_LATITUDE, NDSCoordinate.MIN_LONGITUDE]
  have hmaxlat : NDSCoordinate.MAX_LATITUDE = 2 ^ 30 - 1 := by norm_num [NDSCoordinate.MAX_LATITUDE, NDSCoordinate.MAX_LONGITUDE]
  by_cases hfail : to_signed_32bit b < NDSCoordinate.MIN_LATITUDE
  · simp only [hfail, if_true]
    have : min (to_signed_32bit b) NDSCoordinate.MAX_LATITUDE = to_signed_32bit b := by
      rw [hminlat] at hfail
      rw [hmaxlat]
      omega
    rw [this]
    simp only [Bool.not_eq_true']
    rw [if_neg]
    simp only [Bool.or_eq_false_iff, decide_eq_false_iff_not, not_lt, not_le]
    intro hcon
    rw [hminlat] at hfail
    omega
  · simp only [hfail, if_false]
    rw [if_pos]
    simp only [Bool.not_eq_true', Bool.or_eq_false_iff, decide_eq_false_iff_not, not_lt, not_le]
    refine ⟨⟨⟨?_, ?_⟩, ?_⟩, ?_⟩
    · rw [hminlon]; omega
    · rw [hmaxlon]; exact min_le_right _ _
    · rw [hminlat] at hfail ⊢
      rw [hmaxlat]
      omega
    · exact min_le_right _ _

/-- The integer-units construction acts as the identity on pairs that are
already inside the coordinate domain. -/
theorem fromUnits_of_in_domain (a b : Int)
    (h1 : NDSCoordinate.MIN_LONGITUDE ≤ a) (h2 : a ≤ NDSCoordinate.MAX_LONGITUDE)
    (h3 : NDSCoordinate.MIN_LATITUDE ≤ b) (h4 : b ≤ NDSCoordinate.MAX_LATITUDE) :
    NDSCoordinate.fromUnits a b = some ⟨a, b⟩ := by
  have hminlon : NDSCoordinate.MIN_LONGITUDE = -(2 ^ 31) := rfl
  have hmaxlon : NDSCoordinate.MAX_LONGITUDE = 2 ^ 31 - 1 := by norm_num [NDSCoordinate.MAX_LONGITUDE]
  have hminlat : NDSCoordinate.MIN_LATITUDE = -(2 ^ 30) := by norm_num [NDSCoordinate.MIN_LATITUDE, NDSCoordinate.MIN_LONGITUDE]
  have hmaxlat : NDSCoordinate.MAX_LATITUDE = 2 ^ 30 - 1 := by norm_num [NDSCoordinate.MAX_LATITUDE, NDSCoordinate.MAX_LONGITUDE]
  have ha : to_signed_32bit a = a := by
    apply to_signed_32bit_of_range <;> omega
  have hb : to_signed_32bit b = b := by
    apply to_signed_32bit_of_range <;> omega
  rw [fromUnits_eq, ha, hb, if_neg (by omega)]
  congr 1
  have e1 : min a NDSCoordinate.MAX_LONGITUDE = a := min_eq_left h2
  have e2 : min b NDSCoordinate.MAX_LATITUDE = b := min_eq_left h4
  rw [e1, e2]

end FromUnitsLemmas

/-- C4: `from_units` semantics.  The normalization `to_signed_32bit` is
congruent to the input modulo `2 ^ 32` and lands in the signed 32-bit range;
the construction then clamps over-max values down to the axis maximum and
fails exactly when the normalized latitude lies below the latitude minimum
(a normalized longitude can never be below the longitude minimum, so the
construction never errors on over-max inputs). -/
theorem claim_C4_fromUnits_semantics (a b : Int) :
    to_signed_32bit a % 2 ^ 32 = a % 2 ^ 32 ∧
    -(2 ^ 31) ≤ to_signed_32bit a ∧ to_signed_32bit a ≤ 2 ^ 31 - 1 ∧
    NDSCoordinate.fromUnits a b =
      (if to_signed_32bit b < NDSCoordinate.MIN_LATITUDE then none
       else some ⟨min (to_signed_32bit a) NDSCoordinate.MAX_LONGITUDE,
                  min (to_signed_32bit b) NDSCoordinate.MAX_LATITUDE⟩) := by
  refine ⟨to_signed_32bit_emod a, to_signed_32bit_lb a, ?_, fromUnits_eq a b⟩
  have := to_signed_32bit_ub a
  omega

/-- C1: Morton round trip.  For every pair in the coordinate domain
(longitude in `[-2^31, 2^31 - 1]`, latitude in `[-2^30, 2^30 - 1]`, stated
through the named boundary constants), decoding the Morton code produced by
`get_morton_code` (constructing an `NDSCoordinate` from its result) yields
exactly the original longitude and latitude. -/
theorem claim_C1_morton_roundtrip (lon lat : ℤ)
    (h1 : NDSCoordinate.MIN_LONGITUDE ≤ lon) (h2 : lon ≤ NDSCoordinate.MAX_LONGITUDE)
    (h3 : NDSCoordinate.MIN_LATITUDE ≤ lat) (h4 : lat ≤ NDSCoordinate.MAX_LATITUDE) :
    NDSCoordinate.fromMorton
        ((NDSCoordinate.get_morton_code ⟨lon, lat⟩ : ℕ) : ℤ) = some ⟨lon, lat⟩ := by
  rw [MIN_LONGITUDE_eq] at h1
  rw [MAX_LONGITUDE_eq] at h2
  rw [MIN_LATITUDE_eq] at h3
  rw [MAX_LATITUDE_eq] at h4
  obtain ⟨c, hc, clb, cub, clatlb, clatub, hlonbits, hlatbits, hlatbit31⟩ :=
    fromMorton_spec ((NDSCoordinate.get_morton_code ⟨lon, lat⟩ : ℕ) : ℤ)
  have hM : ∀ k : ℕ, intTestBit ((NDSCoordinate.get_morton_code ⟨lon, lat⟩ : ℕ) : ℤ) k =
      (if k = 62 then decide (lon < 0)
       else if k = 61 then (intTestBit lat 30 || decide (lat < 0))
       else decide (k < 61) &&
         (if k % 2 = 0 then intTestBit lon (k / 2)
          else intTestBit lat (k / 2))) := by
    intro k
    rw [intTestBit_natCast, get_morton_code_testBit]
  have hlat30 : intTestBit lat 30 = decide (lat < 0) :=
    intTestBit_30_of_lat_range lat (by omega) (by omega)
  have hlat31 : intTestBit lat 31 = decide (lat < 0) :=
    intTestBit_31_of_range lat (by omega) (by omega)
  have hlon31 : intTestBit lon 31 = decide (lon < 0) :=
    intTestBit_31_of_range lon (by omega) (by omega)
  have hlon_eq : c.longitude = lon := by
    apply int32_eq_of_testBit c.longitude lon clb cub (by omega) (by omega)
    intro p hp
    rw [hlonbits p hp, hM]
    by_cases h62 : p = 31
    · subst h62
      simp [hlon31]
    · have hne62 : ¬(p * 2 = 62) := by omega
      have hne61 : ¬(p * 2 = 61) := by omega
      have hlt : p * 2 < 61 := by omega
      have hmod : (p * 2) % 2 = 0 := by omega
      have hdiv : (p * 2) / 2 = p := by omega
      simp [hne62, hne61, hlt, hmod, hdiv]
  have hlat_eq : c.latitude = lat := by
    apply int32_eq_of_testBit c.latitude lat (by omega) (by omega) (by omega) (by omega)
    intro p hp
    rcases Nat.lt_or_ge p 31 with hp31 | hp31
    · rw [hlatbits p hp31, hM]
      by_cases h30 : p = 30
      · subst h30
        simp [hlat30]
      · have hne62 : ¬(p * 2 + 1 = 62) := by omega
        have hne61 : ¬(p * 2 + 1 = 61) := by omega
        have hlt : p * 2 + 1 < 61 := by omega
        have hmod : (p * 2 + 1) % 2 = 1 := by omega
        have hdiv : (p * 2 + 1) / 2 = p := by omega
        simp [hne62, hne61, hlt, hmod, hdiv]
    · have hp31e : p = 31 := by omega
      subst hp31e
      rw [hlatbit31, hM]
      simp [hlat30, hlat31]
  rw [hc]
  cases c
  simp only at hlon_eq hlat_eq
  rw [hlon_eq, hlat_eq]

/-- Witness for C1 at the boundary pair
`(MIN_LONGITUDE, MIN_LATITUDE) = (-2^31, -2^30)`. -/
theorem claim_C1_morton_roundtrip_witness :
    NDSCoordinate.MIN_LONGITUDE ≤ NDSCoordinate.MIN_LONGITUDE ∧
    NDSCoordinate.MIN_LONGITUDE ≤ NDSCoordinate.MAX_LONGITUDE ∧
    NDSCoordinate.MIN_LATITUDE ≤ NDSCoordinate.MIN_LATITUDE ∧
    NDSCoordinate.MIN_LATITUDE ≤ NDSCoordinate.MAX_LATITUDE ∧
    NDSCoordinate.fromMorton
        ((NDSCoordinate.get_morton_code
          ⟨NDSCoordinate.MIN_LONGITUDE, NDSCoordinate.MIN_LATITUDE⟩ : ℕ) : ℤ) =
      some ⟨NDSCoordinate.MIN_LONGITUDE, NDSCoordinate.MIN_LATITUDE⟩ :=
  ⟨by decide, by decide, by decide, by decide,
    claim_C1_morton_roundtrip NDSCoordinate.MIN_LONGITUDE NDSCoordinate.MIN_LATITUDE
      (by decide) (by decide) (by decide) (by decide)⟩

theorem nat_add_pow_xor (t K : ℕ) (ht : t < 2 ^ K) : (t + 2 ^ K) ^^^ 2 ^ K = t := by
  apply Nat.eq_of_testBit_eq
  intro i
  rw [Nat.testBit_xor, Nat.testBit_two_pow, Nat.add_comm t (2 ^ K)]
  rcases Nat.lt_trichotomy i K with hi | hi | hi
  · rw [Nat.testBit_two_pow_add_gt hi, decide_eq_false (by omega : ¬(K = i))]
    simp
  · subst hi
    rw [Nat.testBit_two_pow_add_eq, Nat.testBit_lt_two_pow ht]
    simp [Nat.testBit_lt_two_pow ht]
  · have h1 : 2 ^ K + t < 2 ^ i := by
      have : 2 ^ K + t < 2 ^ (K + 1) := by
        have := Nat.pow_succ 2 K
        omega
      exact lt_of_lt_of_le this (Nat.pow_le_pow_right (by norm_num) (by omega))
    rw [Nat.testBit_lt_two_pow h1,
      Nat.testBit_lt_two_pow (lt_of_lt_of_le ht (Nat.pow_le_pow_right (by norm_num) (by omega))),
      decide_eq_false (by omega : ¬(K = i))]
    rfl

theorem extractLevelFrom_ge (p : Int) (hp : 0 ≤ p) (l : ℕ) (hl : l ≤ 15)
    (hbit : intTestBit p (16 + l) = true)
    (habove : ∀ j : ℕ, l < j → j ≤ 15 → intTestBit p (16 + j) = false) :
    ∀ j : ℕ, l ≤ j → j ≤ 15 → NDSTile.extractLevelFrom p j = l := by
  intro j
  induction j with
  | zero =>
    intro hj1 _hj2
    have hl0 : l = 0 := by omega
    subst hl0
    rw [NDSTile.extractLevelFrom, if_pos hbit]
    rfl
  | succ i ih =>
    intro hj1 hj2
    rw [NDSTile.extractLevelFrom]
    by_cases heq : l = i + 1
    · subst heq
      rw [if_pos hbit]
    · have hfalse : intTestBit p (16 + (i + 1)) = false := habove (i + 1) (by omega) (by omega)
      rw [hfalse]
      have hneg : (decide (p < 0) && ((i + 1 : ℕ) == 15)) = false := by
        rw [decide_eq_false (by omega : ¬(p < 0))]
        rfl
      simp only [Bool.false_eq_true, if_false, hneg]
      exact ih (by omega) (by omega)

/-- C2: packed-ID round trip.  For every level in `[0, 15]` and tile number
in `[0, 2^(2*level+1) - 1]`, the level-and-number constructor accepts the
pair, and constructing a tile from the packed id of that tile recovers
exactly the same level and tile number (`packed_id` is inverted by the
packed-id constructor on the whole valid range). -/
theorem claim_C2_packed_id_roundtrip (l t : ℕ) (hl : l ≤ 15) (ht : t < 2 ^ (2 * l + 1)) :
    NDSTile.fromLevelNumber (l : ℤ) (t : ℤ) = some ⟨(l : ℤ), (t : ℤ)⟩ ∧
    NDSTile.fromPackedId ((⟨(l : ℤ), (t : ℤ)⟩ : NDSTile).packed_id) = some ⟨(l : ℤ), (t : ℤ)⟩ := by
  have htK : t < 2 ^ (16 + l) :=
    lt_of_lt_of_le ht (Nat.pow_le_pow_right (by norm_num) (by omega))
  constructor
  · unfold NDSTile.fromLevelNumber
    rw [if_neg, if_neg, if_neg]
    · rw [Int.toNat_natCast]
      have h2 : ((2 ^ (2 * l + 1) : ℕ) : ℤ) = 2 ^ (2 * l + 1) := by push_cast; rfl
      have : (t : ℤ) < 2 ^ (2 * l + 1) := by
        rw [← h2]
        exact_mod_cast ht
      omega
    · omega
    · rw [Bool.or_eq_true, decide_eq_true_eq, decide_eq_true_eq]
      push_neg
      constructor
      · omega
      · show (l : ℤ) ≤ 15
        omega
  · have hPval : (⟨(l : ℤ), (t : ℤ)⟩ : NDSTile).packed_id = ((t + 2 ^ (16 + l) : ℕ) : ℤ) := by
      unfold NDSTile.packed_id
      simp only [Int.toNat_natCast]
      push_cast
      ring
    set PN : ℕ := t + 2 ^ (16 + l) with hPNdef
    have hPNbits_above : ∀ j : ℕ, l < j → j ≤ 15 → intTestBit ((PN : ℕ) : ℤ) (16 + j) = false := by
      intro j hj1 _hj2
      rw [intTestBit_natCast]
      apply Nat.testBit_lt_two_pow
      calc PN < 2 ^ (16 + l) + 2 ^ (16 + l) := by omega
      _ = 2 ^ (16 + l + 1) := by rw [Nat.pow_succ]; omega
      _ ≤ 2 ^ (16 + j) := Nat.pow_le_pow_right (by norm_num) (by omega)
    have hPNbit : intTestBit ((PN : ℕ) : ℤ) (16 + l) = true := by
      rw [intTestBit_natCast, hPNdef, Nat.add_comm t (2 ^ (16 + l)),
        Nat.testBit_two_pow_add_eq, Nat.testBit_lt_two_pow htK]
      rfl
    have hlevel : NDSTile.extract_level ((PN : ℕ) : ℤ) = (l : ℤ) := by
      unfold NDSTile.extract_level
      exact extractLevelFrom_ge ((PN : ℕ) : ℤ) (by positivity) l hl hPNbit hPNbits_above 15
        hl (le_refl 15)
    unfold NDSTile.fromPackedId
    rw [hPval, hlevel, if_neg (by omega)]
    congr 1
    have hco : ((l : ℤ)).toNat = l := Int.toNat_natCast l
    rw [hco]
    have hxor : Int.xor ((PN : ℕ) : ℤ) (((2 ^ (16 + l) : ℕ) : ℕ) : ℤ) =
        ((PN ^^^ 2 ^ (16 + l) : ℕ) : ℤ) := rfl
    have hpow : ((2 : ℤ) ^ (16 + l)) = ((2 ^ (16 + l) : ℕ) : ℤ) := by push_cast; rfl
    rw [hpow, hxor, hPNdef, nat_add_pow_xor t (16 + l) htK]

/-- Witness for C2 at level 2, tile number 10 (packed id 262154). -/
theorem claim_C2_packed_id_roundtrip_witness :
    2 ≤ 15 ∧ 10 < 2 ^ (2 * 2 + 1) ∧
    NDSTile.fromLevelNumber ((2 : ℕ) : ℤ) ((10 : ℕ) : ℤ) = some ⟨((2 : ℕ) : ℤ), ((10 : ℕ) : ℤ)⟩ ∧
    NDSTile.fromPackedId ((⟨((2 : ℕ) : ℤ), ((10 : ℕ) : ℤ)⟩ : NDSTile).packed_id) =
      some ⟨((2 : ℕ) : ℤ), ((10 : ℕ) : ℤ)⟩ := by
  refine ⟨by decide, by decide, ?_, ?_⟩
  · exact (claim_C2_packed_id_roundtrip 2 10 (by decide) (by decide)).1
  · exact (claim_C2_packed_id_roundtrip 2 10 (by decide) (by decide)).2

theorem ratTrunc_le_of_lt_add_one (q : ℚ) (B : ℤ) (hB : 0 ≤ B) (h : q < (B : ℚ) + 1) :
    ratTrunc q ≤ B := by
  unfold ratTrunc
  split
  · have : ⌊q⌋ < B + 1 := Int.floor_lt.mpr (by push_cast; exact h)
    omega
  · rename_i hq
    have h0 : ⌈q⌉ ≤ 0 := Int.ceil_le.mpr (by push_cast; exact le_of_lt (not_le.mp hq))
    omega

theorem ratTrunc_ge_of_gt_sub_one (q : ℚ) (B : ℤ) (hB : B ≤ 0) (h : (B : ℚ) - 1 < q) :
    B ≤ ratTrunc q := by
  unfold ratTrunc
  split
  · rename_i hq
    have h0 : 0 ≤ ⌊q⌋ := Int.floor_nonneg.mpr hq
    omega
  · have : B - 1 < ⌈q⌉ := Int.lt_ceil.mpr (by push_cast; exact h)
    omega

theorem ratTrunc_eq_of_nonneg (q : ℚ) (n : ℤ) (h0 : 0 ≤ q) (h1 : (n : ℚ) ≤ q)
    (h2 : q < (n : ℚ) + 1) : ratTrunc q = n := by
  unfold ratTrunc
  rw [if_pos h0]
  exact Int.floor_eq_iff.mpr ⟨h1, h2⟩

theorem ratTrunc_eq_of_neg (q : ℚ) (n : ℤ) (h0 : q < 0) (h1 : q ≤ (n : ℚ))
    (h2 : (n : ℚ) - 1 < q) : ratTrunc q = n := by
  unfold ratTrunc
  rw [if_neg (not_le.mpr h0)]
  exact Int.ceil_eq_iff.mpr ⟨h2, h1⟩

/-- Decidable coordinate-domain predicate used to state the construction
invariant. -/
def NDSCoordinate.inDomain (c : NDSCoordinate) : Bool :=
  decide (NDSCoordinate.MIN_LONGITUDE ≤ c.longitude) &&
  decide (c.longitude ≤ NDSCoordinate.MAX_LONGITUDE) &&
  decide (NDSCoordinate.MIN_LATITUDE ≤ c.latitude) &&
  decide (c.latitude ≤ NDSCoordinate.MAX_LATITUDE)

theorem inDomain_iff (c : NDSCoordinate) :
    NDSCoordinate.inDomain c = true ↔
      (-(2 ^ 31) ≤ c.longitude ∧ c.longitude ≤ 2 ^ 31 - 1 ∧
       -(2 ^ 30) ≤ c.latitude ∧ c.latitude ≤ 2 ^ 30 - 1) := by
  unfold NDSCoordinate.inDomain
  rw [MIN_LONGITUDE_eq, MAX_LONGITUDE_eq, MIN_LATITUDE_eq, MAX_LATITUDE_eq]
  simp only [Bool.and_eq_true, decide_eq_true_eq]
  tauto

/-- C3: coordinate domain invariant.  Every coordinate returned by any of the
three construction paths (integer units, WGS84 degrees, Morton code) has its
longitude in `[-2^31, 2^31 - 1]` and its latitude in `[-2^30, 2^30 - 1]`;
a construction whose input would leave the domain clamps to the axis maximum
or fails, so no out-of-domain coordinate ever escapes construction. -/
theorem claim_C3_domain_invariant :
    (∀ a b : ℤ, (NDSCoordinate.fromUnits a b).all NDSCoordinate.inDomain = true) ∧
    (∀ lon lat : ℚ, (NDSCoordinate.fromDegrees lon lat).all NDSCoordinate.inDomain = true) ∧
    (∀ m : ℤ, (NDSCoordinate.fromMorton m).all NDSCoordinate.inDomain = true) := by
  refine ⟨?_, ?_, ?_⟩
  · intro a b
    rw [fromUnits_eq]
    split
    · rfl
    · rename_i hok
      rw [Option.all_some]
      rw [inDomain_iff]
      have ha1 := to_signed_32bit_lb a
      have ha2 := to_signed_32bit_ub a
      have hb1 := to_signed_32bit_lb b
      have hb2 := to_signed_32bit_ub b
      rw [MIN_LATITUDE_eq] at hok
      simp only
      rw [MAX_LONGITUDE_eq, MAX_LATITUDE_eq]
      omega
  · intro lon lat
    unfold NDSCoordinate.fromDegrees
    split
    · rfl
    split
    · rfl
    rename_i hlon hlat
    rw [Bool.or_eq_true, decide_eq_true_eq, decide_eq_true_eq] at hlon hlat
    push_neg at hlon hlat
    rw [Option.all_some, inDomain_iff]
    simp only
    have hC1 : (NDSCoordinate.LONGITUDE_RANGE : ℚ) = 4294967295 := by
      rw [LONGITUDE_RANGE_eq]
      norm_num
    have hC2 : (NDSCoordinate.LATITUDE_RANGE : ℚ) = 2147483647 := by
      rw [LATITUDE_RANGE_eq]
      norm_num
    rw [hC1, hC2]
    obtain ⟨hlon1, hlon2⟩ := hlon
    obtain ⟨hlat1, hlat2⟩ := hlat
    refine ⟨?_, ?_, ?_, ?_⟩
    · show -(2 ^ 31) ≤ ratTrunc (lon / 360 * 4294967295)
      apply ratTrunc_ge_of_gt_sub_one _ _ (by norm_num)
      push_cast
      linarith
    · show ratTrunc (lon / 360 * 4294967295) ≤ 2 ^ 31 - 1
      apply ratTrunc_le_of_lt_add_one _ _ (by norm_num)
      push_cast
      linarith
    · apply ratTrunc_ge_of_gt_sub_one _ _ (by norm_num)
      push_cast
      linarith
    · apply ratTrunc_le_of_lt_add_one _ _ (by norm_num)
      push_cast
      linarith
  · intro m
    obtain ⟨c, hc, h1, h2, h3, h4, -, -, -⟩ := fromMorton_spec m
    rw [hc, Option.all_some, inDomain_iff]
    omega

/-- C9: degree-range validation.  Construction from WGS84 degrees fails
exactly when the longitude leaves `[-180, 180]` or the latitude leaves
`[-90, 90]`; in particular the degree pairs `(181, 0)` and `(0, 91)` are
rejected, and every in-range pair succeeds. -/
theorem claim_C9_degree_validation :
    (∀ lon lat : ℚ, (NDSCoordinate.fromDegrees lon lat = none ↔
      (lon < -180 ∨ 180 < lon ∨ lat < -90 ∨ 90 < lat))) ∧
    NDSCoordinate.fromDegrees 181 0 = none ∧
    NDSCoordinate.fromDegrees 0 91 = none := by
  have hmain : ∀ lon lat : ℚ, (NDSCoordinate.fromDegrees lon lat = none ↔
      (lon < -180 ∨ 180 < lon ∨ lat < -90 ∨ 90 < lat)) := by
    intro lon lat
    unfold NDSCoordinate.fromDegrees
    by_cases h1 : lon < -180 ∨ lon > 180
    · rw [if_pos (by rw [Bool.or_eq_true, decide_eq_true_eq, decide_eq_true_eq]; exact h1)]
      simp only [true_iff]
      tauto
    · rw [if_neg (by rw [Bool.or_eq_true, decide_eq_true_eq, decide_eq_true_eq]; exact h1)]
      push_neg at h1
      by_cases h2 : lat < -90 ∨ lat > 90
      · rw [if_pos (by rw [Bool.or_eq_true, decide_eq_true_eq, decide_eq_true_eq]; exact h2)]
        simp only [true_iff]
        tauto
      · rw [if_neg (by rw [Bool.or_eq_true, decide_eq_true_eq, decide_eq_true_eq]; exact h2)]
        push_neg at h2
        constructor
        · intro h
          exact absurd h (by simp)
        · intro h
          obtain ⟨ha, hb⟩ := h1
          obtain ⟨hc, hd⟩ := h2
          rcases h with h | h | h | h <;> linarith
  refine ⟨hmain, ?_, ?_⟩
  · rw [hmain]
    norm_num
  · rw [hmain]
    norm_num

theorem fromDegrees_east :
    NDSCoordinate.fromDegrees 90 45 = some ⟨1073741823, 536870911⟩ := by
  unfold NDSCoordinate.fromDegrees
  have h1 : ((90 : ℚ) < -180 || (90 : ℚ) > 180) = false := by norm_num
  have h2 : ((45 : ℚ) < -90 || (45 : ℚ) > 90) = false := by norm_num
  rw [h1, h2]
  simp only [Bool.false_eq_true, if_false]
  have hlat : ratTrunc (45 / 180 * (NDSCoordinate.LATITUDE_RANGE : ℚ)) = 536870911 := by
    rw [show ((NDSCoordinate.LATITUDE_RANGE : ℚ)) = 2147483647 by
      rw [LATITUDE_RANGE_eq]; norm_num]
    apply ratTrunc_eq_of_nonneg <;> norm_num
  have hlon : ratTrunc (90 / 360 * (NDSCoordinate.LONGITUDE_RANGE : ℚ)) = 1073741823 := by
    rw [show ((NDSCoordinate.LONGITUDE_RANGE : ℚ)) = 4294967295 by
      rw [LONGITUDE_RANGE_eq]; norm_num]
    apply ratTrunc_eq_of_nonneg <;> norm_num
  rw [hlat, hlon]

theorem fromDegrees_west :
    NDSCoordinate.fromDegrees (-90) 45 = some ⟨-1073741823, 536870911⟩ := by
  unfold NDSCoordinate.fromDegrees
  have h1 : ((-90 : ℚ) < -180 || (-90 : ℚ) > 180) = false := by norm_num
  have h2 : ((45 : ℚ) < -90 || (45 : ℚ) > 90) = false := by norm_num
  rw [h1, h2]
  simp only [Bool.false_eq_true, if_false]
  have hlat : ratTrunc (45 / 180 * (NDSCoordinate.LATITUDE_RANGE : ℚ)) = 536870911 := by
    rw [show ((NDSCoordinate.LATITUDE_RANGE : ℚ)) = 2147483647 by
      rw [LATITUDE_RANGE_eq]; norm_num]
    apply ratTrunc_eq_of_nonneg <;> norm_num
  have hlon : ratTrunc (-90 / 360 * (NDSCoordinate.LONGITUDE_RANGE : ℚ)) = -1073741823 := by
    rw [show ((NDSCoordinate.LONGITUDE_RANGE : ℚ)) = 4294967295 by
      rw [LONGITUDE_RANGE_eq]; norm_num]
    apply ratTrunc_eq_of_neg <;> norm_num
  rw [hlat, hlon]

/-- C7: hemisphere partition at level 0.  Tile `(0, 0)` contains the
coordinate built from degrees `(90, 45)` and not the one built from
`(-90, 45)`; symmetrically for tile `(0, 1)`. -/
theorem claim_C7_hemisphere_partition :
    NDSTile.fromLevelNumber 0 0 = some ⟨0, 0⟩ ∧
    NDSTile.fromLevelNumber 0 1 = some ⟨0, 1⟩ ∧
    (NDSCoordinate.fromDegrees 90 45).map
      (fun c => NDSTile.contains ⟨0, 0⟩ c) = some true ∧
    (NDSCoordinate.fromDegrees (-90) 45).map
      (fun c => NDSTile.contains ⟨0, 0⟩ c) = some false ∧
    (NDSCoordinate.fromDegrees (-90) 45).map
      (fun c => NDSTile.contains ⟨0, 1⟩ c) = some true ∧
    (NDSCoordinate.fromDegrees 90 45).map
      (fun c => NDSTile.contains ⟨0, 1⟩ c) = some false := by
  refine ⟨by decide, by decide, ?_, ?_, ?_, ?_⟩ <;>
    first
      | (rw [fromDegrees_east]; decide)
      | (rw [fromDegrees_west]; decide)

/-- Counterexample to C5 as stated: the level-and-coordinate constructor
accepts level 16, which is outside `[0, 15]`, instead of failing with a
range error. -/
theorem claim_C5_counterexample :
    (NDSTile.fromLevelCoord 16 ⟨0, 0⟩).isSome = true := by decide

/-- C5 (amended): only the level-and-tile-number constructor validates its
inputs: it fails exactly when the level leaves `[0, 15]` or the tile number
leaves `[0, 2^(2*level+1) - 1]`.  The level-and-coordinate constructor
performs no range check on the level (level 16 with any coordinate
succeeds). -/
theorem claim_C5_level_validation :
    (∀ level nr : ℤ, (NDSTile.fromLevelNumber level nr = none ↔
      (level < 0 ∨ NDSTile.MAX_LEVEL < level ∨ nr < 0 ∨
        (2 : ℤ) ^ (2 * level.toNat + 1) - 1 < nr))) ∧
    (∀ c : NDSCoordinate, (NDSTile.fromLevelCoord 16 c).isSome = true) := by
  constructor
  · intro level nr
    unfold NDSTile.fromLevelNumber
    by_cases h1 : level < 0 ∨ level > NDSTile.MAX_LEVEL
    · rw [if_pos (by rw [Bool.or_eq_true, decide_eq_true_eq, decide_eq_true_eq]; exact h1)]
      simp only [true_iff]
      tauto
    · rw [if_neg (by rw [Bool.or_eq_true, decide_eq_true_eq, decide_eq_true_eq]; exact h1)]
      push_neg at h1
      by_cases h2 : nr < 0
      · rw [if_pos h2]
        simp only [true_iff]
        tauto
      · rw [if_neg h2]
        push_neg at h2
        by_cases h3 : nr > 2 ^ (2 * level.toNat + 1) - 1
        · rw [if_pos h3]
          simp only [true_iff]
          tauto
        · rw [if_neg h3]
          push_neg at h3
          constructor
          · intro h
            exact absurd h (by simp)
          · intro h
            obtain ⟨h1a, h1b⟩ := h1
            rcases h with h | h | h | h <;> omega
  · intro c
    unfold NDSTile.fromLevelCoord
    rw [if_neg (by norm_num [NDSTile.MAX_LEVEL])]
    rfl

/-- C6: containment consistency.  For every level in `[0, 15]` and every
in-domain coordinate `c`, the tile constructed from the level and `c`
contains `c`. -/
theorem claim_C6_containment (level : ℤ) (c : NDSCoordinate)
    (h1 : 0 ≤ level) (h2 : level ≤ NDSTile.MAX_LEVEL)
    (hdom : NDSCoordinate.inDomain c = true) :
    (NDSTile.fromLevelCoord level c).map (fun t => t.contains c) = some true := by
  unfold NDSTile.fromLevelCoord
  rw [if_neg (by rw [NDSTile.MAX_LEVEL] at h2 ⊢; omega)]
  rw [Option.map_some']
  unfold NDSTile.contains
  simp

/-- Witness for C6 at level 3 with the coordinate `(5, -7)`. -/
theorem claim_C6_containment_witness :
    (0 : ℤ) ≤ 3 ∧ (3 : ℤ) ≤ NDSTile.MAX_LEVEL ∧
    NDSCoordinate.inDomain ⟨5, -7⟩ = true ∧
    (NDSTile.fromLevelCoord 3 ⟨5, -7⟩).map (fun t => t.contains ⟨5, -7⟩) = some true :=
  ⟨by decide, by decide, by decide,
    claim_C6_containment 3 ⟨5, -7⟩ (by decide) (by decide) (by decide)⟩

/-- Counterexample to C8 as stated: the tile at level 1 with tile number 4
has grid coordinates `(-2, 0)` (as the docstring grid in the source also
shows), not `(-2, -1)`. -/
theorem claim_C8_counterexample :
    ¬((NDSTile.fromLevelNumber 1 4).map NDSTile.get_tile_grid_coordinates =
      some (-2, -1)) := by decide

/-- C8 (amended): grid-coordinate examples.  `Tile(1, 4)` has grid
coordinates `(-2, 0)`; `Tile(1, 0)` and `Tile(2, 0)` both have grid
coordinates `(0, 0)`. -/
theorem claim_C8_grid_examples :
    (NDSTile.fromLevelNumber 1 4).map NDSTile.get_tile_grid_coordinates = some (-2, 0) ∧
    (NDSTile.fromLevelNumber 1 0).map NDSTile.get_tile_grid_coordinates = some (0, 0) ∧
    (NDSTile.fromLevelNumber 2 0).map NDSTile.get_tile_grid_coordinates = some (0, 0) := by
  refine ⟨by decide, by decide, by decide⟩

theorem intTestBit_mul_two_pow (x : ℤ) (hx : 0 ≤ x) (s j : ℕ) :
    intTestBit (x * 2 ^ s) j = (decide (s ≤ j) && intTestBit x (j - s)) := by
  have hcast : x * 2 ^ s = ((x.toNat * 2 ^ s : ℕ) : ℤ) := by
    push_cast
    rw [Int.toNat_of_nonneg hx]
  rw [hcast, intTestBit_natCast, ← Nat.shiftLeft_eq, Nat.testBit_shiftLeft,
    show x = ((x.toNat : ℕ) : ℤ) from (Int.toNat_of_nonneg hx).symm, intTestBit_natCast]
  rfl

theorem emod_pow_eq_zero_of_low_bits (x : ℤ) (k : ℕ)
    (h : ∀ i : ℕ, i < k → intTestBit x i = false) : x % 2 ^ k = 0 := by
  induction k with
  | zero =>
    simp [Int.emod_one]
  | succ j ih =>
    have hj : x % 2 ^ j = 0 := ih (fun i hi => h i (by omega))
    have hbit : intTestBit x j = false := h j (by omega)
    unfold intTestBit at hbit
    rw [decide_eq_false_iff_not, not_le] at hbit
    have hdvd : ((2 : ℤ) ^ j) ∣ 2 ^ (j + 1) := pow_dvd_pow 2 (by omega)
    have h1 : (x % 2 ^ (j + 1)) % 2 ^ j = 0 := by
      rw [Int.emod_emod_of_dvd x hdvd, hj]
    have h2 : 0 ≤ x % 2 ^ (j + 1) :=
      Int.emod_nonneg x (by positivity : (0 : ℤ) < 2 ^ (j + 1)).ne'
    rw [Int.emod_eq_of_lt h2 hbit] at h1
    exact h1

theorem aligned_le_of_lt (r : ℤ) (k e : ℕ) (hk : k ≤ e) (hr0 : 0 ≤ r)
    (hrk : r % 2 ^ k = 0) (hlt : r < 2 ^ e) : r ≤ 2 ^ e - 2 ^ k := by
  obtain ⟨c, hc⟩ := Int.dvd_of_emod_eq_zero hrk
  have he : (2 : ℤ) ^ e = 2 ^ (e - k) * 2 ^ k := by
    rw [← pow_add]
    congr 1
    omega
  have hkpos : (0 : ℤ) < 2 ^ k := by positivity
  have hc_lt : c < 2 ^ (e - k) := by
    by_contra hcon
    push_neg at hcon
    have hge : 2 ^ (e - k) * 2 ^ k ≤ c * 2 ^ k :=
      mul_le_mul_of_nonneg_right hcon (le_of_lt hkpos)
    rw [he] at hlt
    rw [hc] at hlt
    nlinarith
  have hle : 2 ^ k * c ≤ 2 ^ k * (2 ^ (e - k) - 1) :=
    mul_le_mul_of_nonneg_left (by omega) (le_of_lt hkpos)
  calc r = 2 ^ k * c := hc
  _ ≤ 2 ^ k * (2 ^ (e - k) - 1) := hle
  _ = 2 ^ (e - k) * 2 ^ k - 2 ^ k := by ring
  _ = 2 ^ e - 2 ^ k := by rw [← he]

theorem aligned_neg_le (a : ℤ) (k : ℕ) (ha : a % 2 ^ k = 0) (hneg : a < 0) :
    a ≤ -(2 ^ k) := by
  obtain ⟨c, hc⟩ := Int.dvd_of_emod_eq_zero ha
  have hkpos : (0 : ℤ) < 2 ^ k := by positivity
  have hc0 : c < 0 := by
    by_contra hcon
    push_neg at hcon
    have : 0 ≤ 2 ^ k * c := mul_nonneg (le_of_lt hkpos) hcon
    omega
  calc a = 2 ^ k * c := hc
  _ ≤ 2 ^ k * (-1) := mul_le_mul_of_nonneg_left (by omega) (le_of_lt hkpos)
  _ = -(2 ^ k) := by ring

theorem intTestBit_add_small (a δ : ℤ) (k p : ℕ) (ha : a % 2 ^ k = 0)
    (hd1 : 0 ≤ δ) (hd2 : δ < 2 ^ k) (hp : k ≤ p) :
    intTestBit (a + δ) p = intTestBit a p := by
  unfold intTestBit
  have hM : (0 : ℤ) < 2 ^ (p + 1) := by positivity
  have hkM : ((2 : ℤ) ^ k) ∣ 2 ^ (p + 1) := pow_dvd_pow 2 (by omega)
  set r := a % 2 ^ (p + 1) with hr
  have hr0 : 0 ≤ r := Int.emod_nonneg a hM.ne'
  have hrlt : r < 2 ^ (p + 1) := Int.emod_lt_of_pos a hM
  have hrk : r % 2 ^ k = 0 := by
    rw [hr, Int.emod_emod_of_dvd a hkM, ha]
  have hrle : r ≤ 2 ^ (p + 1) - 2 ^ k := aligned_le_of_lt r k (p + 1) (by omega) hr0 hrk hrlt
  have hdM : δ % 2 ^ (p + 1) = δ := Int.emod_eq_of_lt hd1 (by omega)
  have hsum : (a + δ) % 2 ^ (p + 1) = r + δ := by
    rw [Int.add_emod, ← hr, hdM]
    exact Int.emod_eq_of_lt (by omega) (by omega)
  rw [hsum, decide_eq_decide]
  have hkp : (2 : ℤ) ^ k ≤ 2 ^ p := pow_le_pow_right₀ (by norm_num) hp
  constructor
  · intro h
    by_contra hcon
    push_neg at hcon
    have hrle2 : r ≤ 2 ^ p - 2 ^ k := aligned_le_of_lt r k p hp hr0 hrk hcon
    omega
  · intro h
    omega

theorem pow_sub_one_ediv (n i : ℕ) (h : i ≤ n) :
    ((2 : ℤ) ^ n - 1) / 2 ^ i = 2 ^ (n - i) - 1 := by
  have he : (2 : ℤ) ^ n = 2 ^ (n - i) * 2 ^ i := by
    rw [← pow_add]
    congr 1
    omega
  have h1 : ((2 : ℤ) ^ n - 1) = (2 ^ i - 1) + (2 ^ (n - i) - 1) * 2 ^ i := by
    rw [he]
    ring
  have hipos : (0 : ℤ) < 2 ^ i := by positivity
  rw [h1, Int.add_mul_ediv_right _ _ hipos.ne',
    Int.ediv_eq_zero_of_lt (by omega) (by omega)]
  ring

/-- C10: a tile contains its own center.  For every level in `[0, 15]` and
every valid tile number for that level, the center computed by `get_center`
(south-west corner Morton code plus half the tile span, with the `+1`
truncation correction on negative corners) stays inside the tile as decided
by `contains`. -/
theorem claim_C10_center_contained (level tn : ℤ)
    (h1 : 0 ≤ level) (h2 : level ≤ NDSTile.MAX_LEVEL)
    (h3 : 0 ≤ tn) (h4 : tn ≤ 2 ^ (2 * level.toNat + 1) - 1) :
    ((⟨level, tn⟩ : NDSTile).get_center).map
      (fun ctr => (⟨level, tn⟩ : NDSTile).contains ctr) = some true := by
  rw [NDSTile.MAX_LEVEL] at h2
  by_cases hlev0 : level = 0
  · subst hlev0
    have htn : tn = 0 ∨ tn = 1 := by
      simp only [Int.toNat_zero] at h4
      omega
    rcases htn with rfl | rfl <;> decide
  -- level ≥ 1 from here on
  set l : ℕ := level.toNat with hldef
  have hl1 : 1 ≤ l := by omega
  have hl15 : l ≤ 15 := by omega
  have hlevl : level = (l : ℤ) := by omega
  set K : ℕ := 31 - l with hKdef
  have hK16 : 16 ≤ K := by omega
  have hK30 : K ≤ 30 := by omega
  set s : ℕ := (32 + (NDSTile.MAX_LEVEL - level) * 2).toNat with hsdef
  have hs : s = 2 * K := by
    rw [hsdef, NDSTile.MAX_LEVEL]
    omega
  have htn2 : tn < 2 ^ (2 * l + 1) := by omega
  set m : ℤ := tn * 2 ^ s with hmdef
  have hmbits : ∀ j : ℕ, intTestBit m j = (decide (s ≤ j) && intTestBit tn (j - s)) :=
    fun j => intTestBit_mul_two_pow tn h3 s j
  have htn_high : ∀ j : ℕ, 2 * l + 1 ≤ j → intTestBit tn j = false := by
    intro j hj
    rw [show tn = ((tn.toNat : ℕ) : ℤ) from (Int.toNat_of_nonneg h3).symm, intTestBit_natCast]
    apply Nat.testBit_lt_two_pow
    have hcast : ((2 ^ (2 * l + 1) : ℕ) : ℤ) = (2 : ℤ) ^ (2 * l + 1) := by
      push_cast
      rfl
    have htnn : tn.toNat < 2 ^ (2 * l + 1) := by omega
    exact lt_of_lt_of_le htnn (Nat.pow_le_pow_right (by norm_num) hj)
  obtain ⟨sw, hsw, swlb, swub, swlatlb, swlatub, hswlon, hswlat, hswlat31⟩ := fromMorton_spec m
  -- alignment of the decoded south-west corner
  have hlonalign : sw.longitude % 2 ^ K = 0 := by
    apply emod_pow_eq_zero_of_low_bits
    intro i hi
    rw [hswlon i (by omega), hmbits]
    rw [decide_eq_false (by omega : ¬(s ≤ i * 2))]
    rfl
  have hlatalign : sw.latitude % 2 ^ K = 0 := by
    apply emod_pow_eq_zero_of_low_bits
    intro i hi
    rw [hswlat i (by omega), hmbits]
    rw [decide_eq_false (by omega : ¬(s ≤ i * 2 + 1))]
    rfl
  -- the two half-span deltas coincide
  have hdlat : NDSCoordinate.LATITUDE_RANGE / 2 ^ (l + 1) = 2 ^ (30 - l) - 1 := by
    rw [LATITUDE_RANGE_eq, pow_sub_one_ediv 31 (l + 1) (by omega)]
    congr 2
    omega
  have hdlon : NDSCoordinate.LONGITUDE_RANGE / 2 ^ (l + 2) = 2 ^ (30 - l) - 1 := by
    rw [LONGITUDE_RANGE_eq, pow_sub_one_ediv 32 (l + 2) (by omega)]
    congr 2
    omega
  set d : ℤ := 2 ^ (30 - l) - 1 with hddef
  have hdK : 2 ^ (30 - l) < (2 : ℤ) ^ K := by
    apply pow_lt_pow_right₀ (by norm_num)
    omega
  have hdK2 : (2 : ℤ) ^ K = 2 * 2 ^ (30 - l) := by
    rw [show K = (30 - l) + 1 by omega, pow_succ]
    ring
  have hd0 : 0 ≤ d := by
    have : (0 : ℤ) < 2 ^ (30 - l) := by positivity
    omega
  set dlon : ℤ := d + (if sw.longitude < 0 then 1 else 0) with hdlondef
  set dlat : ℤ := d + (if sw.latitude < 0 then 1 else 0) with hdlatdef
  have hdlon0 : 0 ≤ dlon ∧ dlon ≤ 2 ^ (30 - l) := by
    rw [hdlondef]
    split <;> omega
  have hdlat0 : 0 ≤ dlat ∧ dlat ≤ 2 ^ (30 - l) := by
    rw [hdlatdef]
    split <;> omega
  set clon : ℤ := sw.longitude + dlon with hclondef
  set clat : ℤ := sw.latitude + dlat with hclatdef
  -- sign preservation and domain bounds for the center
  have hlon_sign : clon < 0 ↔ sw.longitude < 0 := by
    constructor
    · intro h
      by_contra hcon
      push_neg at hcon
      have : 0 ≤ clon := by
        rw [hclondef]
        omega
      omega
    · intro h
      have hle : sw.longitude ≤ -(2 ^ K) := aligned_neg_le _ K hlonalign h
      rw [hclondef]
      omega
  have hlat_sign : clat < 0 ↔ sw.latitude < 0 := by
    constructor
    · intro h
      by_contra hcon
      push_neg at hcon
      have : 0 ≤ clat := by
        rw [hclatdef]
        omega
      omega
    · intro h
      have hle : sw.latitude ≤ -(2 ^ K) := aligned_neg_le _ K hlatalign h
      rw [hclatdef]
      omega
  have hclon_dom : -(2 ^ 31) ≤ clon ∧ clon ≤ 2 ^ 31 - 1 := by
    rcases lt_or_le sw.longitude 0 with hneg | hpos
    · have hle : sw.longitude ≤ -(2 ^ K) := aligned_neg_le _ K hlonalign hneg
      rw [hclondef]
      omega
    · have hle : sw.longitude ≤ 2 ^ 31 - 2 ^ K :=
        aligned_le_of_lt _ K 31 (by omega) hpos hlonalign swub
      rw [hclondef]
      omega
  have hclat_dom : -(2 ^ 30) ≤ clat ∧ clat ≤ 2 ^ 30 - 1 := by
    rcases lt_or_le sw.latitude 0 with hneg | hpos
    · have hle : sw.latitude ≤ -(2 ^ K) := aligned_neg_le _ K hlatalign hneg
      rw [hclatdef]
      omega
    · have hle : sw.latitude ≤ 2 ^ 30 - 2 ^ K :=
        aligned_le_of_lt _ K 30 (by omega) hpos hlatalign swlatub
      rw [hclatdef]
      omega
  -- the center construction succeeds and stores exactly (clon, clat)
  have hcenter : (⟨level, tn⟩ : NDSTile).get_center = some ⟨clon, clat⟩ := by
    unfold NDSTile.get_center
    rw [if_neg (by rw [beq_iff_eq]; simp only; omega)]
    have hswm : (⟨level, tn⟩ : NDSTile).south_west_as_morton = m := rfl
    rw [hswm, hsw]
    simp only
    rw [← hldef, hdlat, hdlon]
    have e1 : sw.latitude + d + (if sw.latitude < 0 then 1 else 0) = clat := by
      rw [hclatdef, hdlatdef]
      ring
    have e2 : sw.longitude + d + (if sw.longitude < 0 then 1 else 0) = clon := by
      rw [hclondef, hdlondef]
      ring
    rw [e1, e2]
    apply fromUnits_of_in_domain
    · rw [MIN_LONGITUDE_eq]
      omega
    · rw [MAX_LONGITUDE_eq]
      omega
    · rw [MIN_LATITUDE_eq]
      omega
    · rw [MAX_LATITUDE_eq]
      omega
  -- bit agreement between the center and the south-west corner above K
  have hclon_bits : ∀ p : ℕ, K ≤ p → intTestBit clon p = intTestBit sw.longitude p := by
    intro p hp
    rw [hclondef]
    exact intTestBit_add_small sw.longitude dlon K p hlonalign hdlon0.1
      (by omega) hp
  have hclat_bits : ∀ p : ℕ, K ≤ p → intTestBit clat p = intTestBit sw.latitude p := by
    intro p hp
    rw [hclatdef]
    exact intTestBit_add_small sw.latitude dlat K p hlatalign hdlat0.1
      (by omega) hp
  -- containment: the shifted Morton code of the center is the tile number
  have hshift : ((NDSCoordinate.get_morton_code ⟨clon, clat⟩) >>> s) = tn.toNat := by
    apply Nat.eq_of_testBit_eq
    intro q
    rw [Nat.testBit_shiftRight, get_morton_code_testBit]
    simp only
    have htn_cast : ∀ j : ℕ, tn.toNat.testBit j = intTestBit tn j := by
      intro j
      rw [show tn = ((tn.toNat : ℕ) : ℤ) from (Int.toNat_of_nonneg h3).symm,
        intTestBit_natCast]
      rfl
    rcases Nat.lt_trichotomy (s + q) 61 with hsq | hsq | hsq
    · -- interleaved payload bits
      rw [if_neg (by omega), if_neg (by omega)]
      rcases Nat.even_or_odd (s + q) with he | he
      · have h0 : (s + q) % 2 = 0 := Nat.even_iff.mp he
        have hKp : K ≤ (s + q) / 2 := by omega
        have hp32 : (s + q) / 2 < 32 := by omega
        rw [if_pos h0, decide_eq_true (by omega : s + q < 61), Bool.true_and,
          hclon_bits _ hKp, hswlon _ hp32, hmbits]
        rw [decide_eq_true (by omega : s ≤ (s + q) / 2 * 2), Bool.true_and, htn_cast]
        congr 1
        omega
      · have h0 : (s + q) % 2 = 1 := Nat.odd_iff.mp he
        have hKp : K ≤ (s + q) / 2 := by omega
        have hp31 : (s + q) / 2 < 31 := by omega
        rw [if_neg (by omega), decide_eq_true (by omega : s + q < 61), Bool.true_and,
          hclat_bits _ hKp, hswlat _ hp31, hmbits]
        rw [decide_eq_true (by omega : s ≤ (s + q) / 2 * 2 + 1), Bool.true_and, htn_cast]
        congr 1
        omega
    · -- bit 61: latitude bit 30 together with the latitude sign flag
      rw [if_neg (by omega), if_pos hsq]
      have hlat30sw : intTestBit sw.latitude 30 = decide (sw.latitude < 0) :=
        intTestBit_30_of_lat_range sw.latitude (by omega) (by omega)
      have hlat30c : intTestBit clat 30 = intTestBit sw.latitude 30 := hclat_bits 30 hK30
      have hsgn : decide (clat < 0) = decide (sw.latitude < 0) := by
        rw [decide_eq_decide]
        exact hlat_sign
      rw [hlat30c, hsgn, hlat30sw, Bool.or_self, ← hlat30sw, hswlat 30 (by omega), hmbits]
      rw [decide_eq_true (by omega : s ≤ 30 * 2 + 1), Bool.true_and, htn_cast]
      congr 1
      omega
    · rcases Nat.lt_trichotomy (s + q) 62 with hsq2 | hsq2 | hsq2
      · omega
      · -- bit 62: longitude sign flag
        rw [if_pos hsq2]
        have hlon31sw : intTestBit sw.longitude 31 = decide (sw.longitude < 0) :=
          intTestBit_31_of_range sw.longitude (by omega) (by omega)
        have hsgn : decide (clon < 0) = decide (sw.longitude < 0) := by
          rw [decide_eq_decide]
          exact hlon_sign
        rw [hsgn, ← hlon31sw, hswlon 31 (by omega), hmbits]
        rw [decide_eq_true (by omega : s ≤ 31 * 2), Bool.true_and, htn_cast]
        congr 1
        omega
      · -- bits 63 and above are zero on both sides
        rw [if_neg (by omega), if_neg (by omega), decide_eq_false (by omega : ¬(s + q < 61))]
        rw [htn_cast, htn_high q (by omega)]
        rfl
  have hcont : (⟨level, tn⟩ : NDSTile).contains ⟨clon, clat⟩ = true := by
    unfold NDSTile.contains
    simp only
    rw [← hsdef, hshift, Int.toNat_of_nonneg h3]
    exact beq_self_eq_true tn
  rw [hcenter, Option.map_some', hcont]

/-- Witness for C10 at level 2, tile number 10 (a southern-hemisphere
tile). -/
theorem claim_C10_center_contained_witness :
    (0 : ℤ) ≤ 2 ∧ (2 : ℤ) ≤ NDSTile.MAX_LEVEL ∧ (0 : ℤ) ≤ 10 ∧
    (10 : ℤ) ≤ 2 ^ (2 * (2 : ℤ).toNat + 1) - 1 ∧
    ((⟨2, 10⟩ : NDSTile).get_center).map
      (fun ctr => (⟨2, 10⟩ : NDSTile).contains ctr) = some true :=
  ⟨by decide, by decide, by decide, by decide,
    claim_C10_center_contained 2 10 (by decide) (by decide) (by decide) (by decide)⟩
